/-
Verification of the forensiq Go client library (dailymotion/forensiq).

This file gives a shallow embedding, in Lean 4, of the request-construction,
transport and response-handling behaviour of `forensiq.go`, together with
theorems settling the behavioural claims about the library.

Modelling conventions:
* Go strings and byte slices are modelled as `GoStr := List (Fin 256)`
  (Go strings are byte sequences; percent-encoding operates on bytes).
* `net.IP` is a byte slice (`GoStr`); `ipString` follows `net.IP.String`.
* `url.Values` is an association list from keys to value lists; `Values.set`
  is Go map assignment, `Values.encode` follows `url.Values.Encode` (keys
  sorted bytewise, components escaped with `QueryEscape`).
* The HTTP transport (`http.Client` / `ctxhttp`) and the JSON decoder
  (`encoding/json`) are the environment of the library, not its code; they
  are passed to `Check` / `Ready` as explicit oracle parameters.  `Check`
  and `Ready` additionally return the list of HTTP requests handed to the
  transport, so that "no network I/O happens" is expressible.
* `net/url` parsing (`url.Parse`, `URL.String`) is modelled after the Go
  standard library with simplifications that this client never observes:
  userinfo is kept inside the host component, host validation and
  percent-decoding of paths are omitted, and the `ForceQuery`/`OmitHost`
  flags are not tracked.  Fragments are parsed and re-rendered verbatim.
-/
import Mathlib

set_option maxRecDepth 4000

/-- Bytes of a Go string: Go strings are sequences of bytes. -/
abbrev Byte := Fin 256

/-- A Go string (or byte slice), as its list of bytes. -/
abbrev GoStr := List Byte

/-- Embed an ASCII Lean string literal as a Go byte string. -/
def gs (s : String) : GoStr :=
  s.toList.map fun c => (⟨c.toNat % 256, Nat.mod_lt _ (by decide)⟩ : Byte)

/-! ## net.IP.String -/

/-- Decimal digits of a natural number, as ASCII bytes (Go `uitoa`). -/
def natDec (n : Nat) : GoStr :=
  (Nat.toDigits 10 n).map fun c => (⟨c.toNat % 256, Nat.mod_lt _ (by decide)⟩ : Byte)

/-- Lowercase hexadecimal digit byte for a value below 16 (Go `hexDigit` table). -/
def hexLower (d : Nat) : Byte :=
  ⟨(if d < 10 then 48 + d else 87 + d) % 256, Nat.mod_lt _ (by decide)⟩

/-- Go `net.IP.To4`: the 4-byte form of an address that is IPv4 or
IPv4-mapped IPv6, and `none` otherwise. -/
def ipTo4 (ip : GoStr) : Option GoStr :=
  if ip.length = 4 then some ip
  else if ip.length = 16 && (ip.take 10).all (· == (0 : Byte))
          && ip.get? 10 == some (255 : Byte) && ip.get? 11 == some (255 : Byte)
  then some (ip.drop 12)
  else none

/-- The eight 16-bit groups of a 16-byte IPv6 address. -/
def groups16 : GoStr → List Nat
  | a :: b :: rest => (a.val * 256 + b.val) :: groups16 rest
  | _ => []

/-- Length of the run of zero groups starting at the head. -/
def zeroRunLen : List Nat → Nat
  | 0 :: rest => 1 + zeroRunLen rest
  | _ => 0

/-- First, strictly longest run of zero groups (start index and length),
mirroring the `e0`/`e1` loop of `net.IP.String`. -/
def bestZeroRunAux : List Nat → Nat → Nat × Nat → Nat × Nat
  | [], _, best => best
  | g :: rest, i, best =>
      let l := zeroRunLen (g :: rest)
      bestZeroRunAux rest (i + 1) (if l > best.2 then (i, l) else best)

/-- The zero run abbreviated by `::` in `net.IP.String`, if one of at least
two groups exists. -/
def bestZeroRun (groups : List Nat) : Option (Nat × Nat) :=
  let best := bestZeroRunAux groups 0 (0, 0)
  if best.2 ≥ 2 then some best else none

/-- Go `appendHex`: lowercase hex of a group value without leading zeros. -/
def hexGroup (n : Nat) : GoStr :=
  if n = 0 then [48]
  else (([n / 4096 % 16, n / 256 % 16, n / 16 % 16, n % 16]).dropWhile
          (fun d => d == 0)).map hexLower

/-- RFC 5952 rendering of the eight groups of an IPv6 address
(the second half of `net.IP.String`). -/
def ipv6Render (groups : List Nat) : GoStr :=
  match bestZeroRun groups with
  | none => List.intercalate [58] (groups.map hexGroup)
  | some (s, l) =>
      List.intercalate [58] ((groups.take s).map hexGroup) ++ [58, 58] ++
      List.intercalate [58] ((groups.drop (s + l)).map hexGroup)

/-- Plain hex dump of a byte slice (Go `hexString`). -/
def hexAll (bs : GoStr) : GoStr :=
  bs.flatMap fun b => [hexLower (b.val / 16), hexLower (b.val % 16)]

/-- Go `net.IP.String`: `"<nil>"` for a zero-length address, dotted decimal
for IPv4, RFC 5952 text for IPv6, and `"?"` plus hex otherwise. -/
def ipString (ip : GoStr) : GoStr :=
  if ip.length = 0 then gs "<nil>"
  else match ipTo4 ip with
    | some p4 => List.intercalate [46] (p4.map fun b => natDec b.val)
    | none =>
        if ip.length ≠ 16 then (63 : Byte) :: hexAll ip
        else ipv6Render (groups16 ip)

/-! ## url.Values: Set, Get, Encode -/

/-- Go `url.Values`: a map from keys to lists of values, modelled as an
association list (Go map iteration order is immaterial here because
`Encode` sorts the keys and `Get` looks a key up). -/
def Values := List (GoStr × List GoStr)

/-- Go `url.Values.Set`: replace the entry of a key by the one-element list. -/
def Values.set : Values → GoStr → GoStr → Values
  | [], k, val => [(k, [val])]
  | (k', vs) :: rest, k, val =>
      if k' = k then (k, [val]) :: rest else (k', vs) :: Values.set rest k val

/-- Go `url.Values.Get`: first value stored under the key, `""` if absent. -/
def Values.get : Values → GoStr → GoStr
  | [], _ => []
  | (k', vs) :: rest, k => if k' = k then vs.headD [] else Values.get rest k

/-- Bytewise lexicographic order on Go strings (Go `sort.Strings` order). -/
def goStrLe : GoStr → GoStr → Bool
  | [], _ => true
  | _ :: _, [] => false
  | a :: as, b :: bs =>
      if a.val < b.val then true
      else if b.val < a.val then false
      else goStrLe as bs

/-- Insert one keyed entry into a key-sorted association list. -/
def insertPair (p : GoStr × List GoStr) : Values → Values
  | [] => [p]
  | q :: rest => if goStrLe p.1 q.1 then p :: q :: rest else q :: insertPair p rest

/-- Sort the entries of a `Values` by key (the `sort.Strings(keys)` step of
`url.Values.Encode`). -/
def Values.sortKeys : Values → Values
  | [] => []
  | p :: rest => insertPair p (Values.sortKeys rest)

/-- Go `shouldEscape(c, encodeQueryComponent)`: every byte other than the
RFC 3986 unreserved characters must be escaped in a query component. -/
def shouldEscapeQuery (b : Byte) : Bool :=
  if (97 ≤ b.val && b.val ≤ 122) || (65 ≤ b.val && b.val ≤ 90)
     || (48 ≤ b.val && b.val ≤ 57) then false
  else if b == 45 || b == 95 || b == 46 || b == 126 then false
  else true

/-- Uppercase hexadecimal digit byte for a value below 16 (Go `upperhex`). -/
def hexUpper (d : Nat) : Byte :=
  ⟨(if d < 10 then 48 + d else 55 + d) % 256, Nat.mod_lt _ (by decide)⟩

/-- Escape one byte as `QueryEscape` does: space to `+`, unreserved bytes
kept, everything else percent-encoded with uppercase hex. -/
def escapeByte (b : Byte) : GoStr :=
  if b == 32 then [43]
  else if shouldEscapeQuery b then [37, hexUpper (b.val / 16), hexUpper (b.val % 16)]
  else [b]

/-- Go `url.QueryEscape`. -/
def queryEscape (s : GoStr) : GoStr := s.flatMap escapeByte

/-- One `key=value` append step of `url.Values.Encode` (an `&` separates it
from a nonempty buffer). -/
def encodeOne (buf : GoStr) (kEsc v : GoStr) : GoStr :=
  (if buf.isEmpty then buf else buf ++ [38]) ++ kEsc ++ 61 :: queryEscape v

/-- Go `url.Values.Encode`: keys sorted bytewise, each value written as
`escapedKey=escapedValue`, joined by `&`. -/
def Values.encode (vs : Values) : GoStr :=
  (Values.sortKeys vs).foldl
    (fun buf p => p.2.foldl (fun buf v => encodeOne buf (queryEscape p.1) v) buf) []

/-! ## Query parsing (the receiving side: url.ParseQuery / QueryUnescape) -/

/-- Hex digit test (Go `ishex`). -/
def isHexB (b : Byte) : Bool :=
  (48 ≤ b.val && b.val ≤ 57) || (97 ≤ b.val && b.val ≤ 102)
    || (65 ≤ b.val && b.val ≤ 70)

/-- Value of a hex digit byte (Go `unhex`). -/
def unhexB (b : Byte) : Nat :=
  if b.val ≤ 57 then b.val - 48
  else if 97 ≤ b.val then b.val - 87
  else b.val - 55

/-- Go `url.QueryUnescape`: percent-triples decode to their byte, `+`
decodes to space, anything else is literal; a malformed escape fails. -/
def queryUnescape : GoStr → Option GoStr
  | [] => some []
  | b :: rest =>
    if b == 37 then
      match rest with
      | h1 :: h2 :: rest2 =>
          if isHexB h1 && isHexB h2 then
            (queryUnescape rest2).map
              (fun t => (⟨(unhexB h1 * 16 + unhexB h2) % 256, Nat.mod_lt _ (by decide)⟩ : Byte) :: t)
          else none
      | _ => none
    else if b == 43 then (queryUnescape rest).map ((32 : Byte) :: ·)
    else (queryUnescape rest).map (b :: ·)

/-- Split a byte string on a separator byte, keeping empty chunks
(the successive `strings.Cut(query, "&")` steps of `url.ParseQuery`). -/
def splitOnByte (sep : Byte) : GoStr → List GoStr
  | [] => [[]]
  | b :: rest =>
      if b == sep then [] :: splitOnByte sep rest
      else match splitOnByte sep rest with
        | c :: cs => (b :: c) :: cs
        | [] => [[b]]

/-- Go `strings.Cut` at the first occurrence of a byte: the part before it
and the part after it (the whole string and `""` when absent). -/
def cutByte (s : GoStr) (sep : Byte) : GoStr × GoStr :=
  match s with
  | [] => ([], [])
  | b :: rest =>
      if b == sep then ([], rest)
      else
        let p := cutByte rest sep
        (b :: p.1, p.2)

/-- One `key=value` chunk of `url.ParseQuery`: rejected (skipped) when it
contains a semicolon or when unescaping fails. -/
def parseChunk (chunk : GoStr) : Option (GoStr × GoStr) :=
  if (59 : Byte) ∈ chunk then none
  else
    let p := cutByte chunk 61
    match queryUnescape p.1, queryUnescape p.2 with
    | some k, some v => some (k, v)
    | _, _ => none

/-- Go `url.ParseQuery`, as the ordered list of decoded key/value pairs it
appends into its map (empty chunks and failing chunks are skipped). -/
def parseQueryPairs (q : GoStr) : List (GoStr × GoStr) :=
  ((splitOnByte 38 q).filter (fun c => !c.isEmpty)).filterMap parseChunk

/-- Go `url.Values.Get` on the parsed pairs: the first value appended under
the key, `""` if the key is absent. -/
def pairsGet : List (GoStr × GoStr) → GoStr → GoStr
  | [], _ => []
  | (k', v) :: rest, k => if k' = k then v else pairsGet rest k

/-! ## net/url: Parse and URL.String (simplified as described above) -/

/-- Component structure of a Go `url.URL` as used by this client. -/
structure URL where
  scheme : GoStr
  opaq : GoStr
  host : GoStr
  path : GoStr
  rawQuery : GoStr
  fragment : GoStr
  deriving DecidableEq, Repr

/-- Does the byte string start with the given byte? -/
def startsWithByte (s : GoStr) (b : Byte) : Bool :=
  match s with
  | [] => false
  | c :: _ => c == b

/-- Lowercase an ASCII letter byte (Go `strings.ToLower` on scheme bytes). -/
def byteToLower (b : Byte) : Byte :=
  if 65 ≤ b.val && b.val ≤ 90 then ⟨(b.val + 32) % 256, Nat.mod_lt _ (by decide)⟩ else b

/-- Go `getscheme`: scan for `scheme:`; a leading `:` is the error
`missing protocol scheme`; a digit or `+ - .` first, or any other byte,
means the URL has no scheme. -/
def getschemeAux (raw acc : GoStr) : GoStr → Except GoStr (GoStr × GoStr)
  | [] => .ok ([], raw)
  | c :: rest =>
      if (97 ≤ c.val && c.val ≤ 122) || (65 ≤ c.val && c.val ≤ 90) then
        getschemeAux raw (acc ++ [c]) rest
      else if (48 ≤ c.val && c.val ≤ 57) || c == 43 || c == 45 || c == 46 then
        if acc.isEmpty then .ok ([], raw)
        else getschemeAux raw (acc ++ [c]) rest
      else if c == 58 then
        if acc.isEmpty then .error (gs "missing protocol scheme")
        else .ok (acc, rest)
      else .ok ([], raw)

/-- Go `getscheme` on a whole URL string. -/
def getschemeGo (raw : GoStr) : Except GoStr (GoStr × GoStr) :=
  getschemeAux raw [] raw

/-- Split at the first occurrence of a byte keeping the separator on the
right-hand part (Go `split(s, c, false)`). -/
def splitKeep (s : GoStr) (sep : Byte) : GoStr × GoStr :=
  match s with
  | [] => ([], [])
  | b :: rest =>
      if b == sep then ([], b :: rest)
      else
        let p := splitKeep rest sep
        (b :: p.1, p.2)

/-- Go `url.Parse` (fragment split off first, then `parse(u, false)`):
control bytes are rejected, the scheme is scanned and lowercased, the query
is split at the first `?`, a rootless rest becomes opaque when a scheme is
present and is rejected when its first segment contains a colon otherwise,
and a `//` prefix introduces the host.  Userinfo, host validation and path
percent-decoding are omitted (this client overwrites the path and never
reads userinfo). -/
def urlParse (rawWhole : GoStr) : Except GoStr URL :=
  let cutF := cutByte rawWhole 35
  let raw := cutF.1
  let frag := cutF.2
  if raw.any (fun b => b.val < 32 || b.val == 127) then
    .error (gs "net/url: invalid control character in URL")
  else if raw = gs "*" then
    .ok ⟨[], [], [], gs "*", [], frag⟩
  else match getschemeGo raw with
    | .error e => .error e
    | .ok (schemeRaw, rest0) =>
        let scheme := schemeRaw.map byteToLower
        let cutQ := cutByte rest0 63
        let rest1 := cutQ.1
        let rawQuery := cutQ.2
        if !startsWithByte rest1 47 then
          if !scheme.isEmpty then .ok ⟨scheme, rest1, [], [], rawQuery, frag⟩
          else if (58 : Byte) ∈ (cutByte rest1 47).1 then
            .error (gs "first path segment in URL cannot contain colon")
          else .ok ⟨scheme, [], [], rest1, rawQuery, frag⟩
        else if (decide (rest1.take 2 = [47, 47]) && !(decide (rest1.take 3 = [47, 47, 47]) && scheme.isEmpty)) then
          let p := splitKeep (rest1.drop 2) 47
          .ok ⟨scheme, [], p.1, p.2, rawQuery, frag⟩
        else .ok ⟨scheme, [], [], rest1, rawQuery, frag⟩

/-- Go `url.URL.String` (without the userinfo and `ForceQuery`/`OmitHost`
refinements, which the modelled URLs never exercise). -/
def URL.toString (u : URL) : GoStr :=
  (if u.scheme.isEmpty then [] else u.scheme ++ [58]) ++
  (if !u.opaq.isEmpty then u.opaq
   else
     (if !u.scheme.isEmpty || !u.host.isEmpty then
        (if !u.host.isEmpty || !u.path.isEmpty then [47, 47] else []) ++ u.host
      else []) ++
     (if !u.path.isEmpty && !startsWithByte u.path 47 && !u.host.isEmpty
      then [47] else []) ++
     (if u.scheme.isEmpty && u.host.isEmpty && decide ((58 : Byte) ∈ (cutByte u.path 47).1)
      then [46, 47] else []) ++
     u.path) ++
  (if u.rawQuery.isEmpty then [] else 63 :: u.rawQuery) ++
  (if u.fragment.isEmpty then [] else 35 :: u.fragment)

/-! ## The forensiq client (forensiq.go) -/

/-- Client configuration (`Forensiq`): the authentication key and the base
address.  The `httpClient` field is the transport, which is passed to the
operations as an explicit oracle parameter. -/
structure Forensiq where
  ClientKey : GoStr
  Host : GoStr
  deriving DecidableEq, Repr

/-- A request to the Forensiq API (`CheckRequest`); the `IP` field is a
`net.IP` byte slice, all other fields are strings. -/
structure CheckRequest where
  IP : GoStr
  RequestType : GoStr
  URL : GoStr
  SellerID : GoStr
  SubID : GoStr
  Campaign : GoStr
  UserAgent : GoStr
  CookieID : GoStr
  deriving DecidableEq, Repr

/-- The response decoded from the Forensiq API (`CheckResponse`). -/
structure CheckResponse where
  RiskScore : Int
  SellerDomain : Int
  DomainViewed : Int
  DomainHidden : Int
  SellerViewed : Int
  SellerHidden : Int
  IPReputation : Bool
  Proxy : Bool
  AutomatedTraffic : Bool
  HostingProvider : Bool
  Spoofed : Int
  NonSuspect : Bool
  TimeMS : Int
  deriving DecidableEq, Repr

/-- The Go zero value `CheckResponse{}`. -/
def zeroCheckResponse : CheckResponse :=
  ⟨0, 0, 0, 0, 0, 0, false, false, false, false, 0, false, 0⟩

/-- The errors `Check`/`Ready` can return: the `url.Parse` error, the
transport error (returned unchanged), the distinguished value
`ErrInvalidClientKey`, and the JSON decoder error (returned unchanged).
In Go these are distinct error values. -/
inductive CheckErr where
  | parseErr (e : GoStr)
  | transportErr (e : GoStr)
  | invalidClientKey
  | decodeErr (e : GoStr)
  deriving DecidableEq, Repr

/-- An outgoing HTTP request as this client builds it: method, structured
URL (Go `http.Request.URL`) and headers. -/
structure HttpRequest where
  method : GoStr
  url : URL
  header : List (GoStr × GoStr)
  deriving DecidableEq, Repr

/-- An HTTP response as delivered by the transport, with the body already
read in full. -/
structure HttpResponse where
  statusCode : Nat
  body : GoStr
  deriving DecidableEq, Repr

/-- The transport oracle: what `ctxhttp.Do`/`ctxhttp.Get` through the
configured `http.Client` answers for a request. -/
def Transport := HttpRequest → Except GoStr HttpResponse

/-- The JSON decoder oracle: what `json.NewDecoder(body).Decode(&cresp)`
produces from a fully read body. -/
def JsonDecoder := GoStr → Except GoStr CheckResponse

/-- Go `CheckRequest.toValues`: the eight request-derived query parameters. -/
def CheckRequest.toValues (cr : CheckRequest) : Values :=
  (((((((Values.set [] (gs "ip") (ipString cr.IP)).set
    (gs "rt") cr.RequestType).set
    (gs "url") cr.URL).set
    (gs "seller") cr.SellerID).set
    (gs "sub") cr.SubID).set
    (gs "cmp") cr.Campaign).set
    (gs "ua") cr.UserAgent).set
    (gs "id") cr.CookieID

/-- The values `Check` sends: `toValues` plus the client-injected
`ck` (authentication key) and `output=JSON` parameters. -/
def checkValues (f : Forensiq) (cr : CheckRequest) : Values :=
  (cr.toValues.set (gs "ck") f.ClientKey).set (gs "output") (gs "JSON")

/-- The encoded query string `Check` puts on the URL
(`uri.RawQuery = v.Encode()`). -/
def checkRawQuery (f : Forensiq) (cr : CheckRequest) : GoStr :=
  Values.encode (checkValues f cr)

/-- The single HTTP request `Check` issues once the base address parsed to
`u`: a GET to `u` with the path replaced by `/check`, the encoded query,
and the `Content-Type: application/json` header. -/
def checkHttpRequest (f : Forensiq) (cr : CheckRequest) (u : URL) : HttpRequest :=
  { method := gs "GET"
    url := { u with path := gs "/check", rawQuery := checkRawQuery f cr }
    header := [(gs "Content-Type", gs "application/json")] }

/-- The single HTTP request `Ready` issues once the base address parsed to
`u`: a GET to `u` with the path replaced by `/ready` and no added headers. -/
def readyHttpRequest (u : URL) : HttpRequest :=
  { method := gs "GET"
    url := { u with path := gs "/ready" }
    header := [] }

/-- Go `Forensiq.Check`: parse the base address (returning the parse error
before any I/O on failure), build the `/check` GET request
(`http.NewRequest` re-parses the rendered URL; for the URL strings this
client renders that parse always succeeds, so it is not modelled as a
failure point), send it, map
status 403 to `ErrInvalidClientKey` without reading the body, and
otherwise decode the body as JSON.  Every error path returns the zero
`CheckResponse`.  The second component lists the requests handed to the
transport. -/
def Forensiq.Check (f : Forensiq) (creq : CheckRequest) (transport : Transport)
    (jsonDecode : JsonDecoder) : (CheckResponse × Option CheckErr) × List HttpRequest :=
  match urlParse f.Host with
  | .error e => ((zeroCheckResponse, some (.parseErr e)), [])
  | .ok u =>
      let req := checkHttpRequest f creq u
      match transport req with
      | .error e => ((zeroCheckResponse, some (.transportErr e)), [req])
      | .ok resp =>
          if resp.statusCode = 403 then
            ((zeroCheckResponse, some .invalidClientKey), [req])
          else match jsonDecode resp.body with
            | .error e => ((zeroCheckResponse, some (.decodeErr e)), [req])
            | .ok cresp => ((cresp, none), [req])

/-- Go `Forensiq.Ready`: parse the base address (returning the parse error
before any I/O on failure), GET `/ready`, and report whether the body text
is exactly `"1"`.  Every error path returns `false`.  The second component
lists the requests handed to the transport. -/
def Forensiq.Ready (f : Forensiq) (transport : Transport) :
    (Bool × Option CheckErr) × List HttpRequest :=
  match urlParse f.Host with
  | .error e => ((false, some (.parseErr e)), [])
  | .ok u =>
      let req := readyHttpRequest u
      match transport req with
      | .error e => ((false, some (.transportErr e)), [req])
      | .ok resp => ((resp.body == gs "1", none), [req])

/-- One encoded `key=value` component of a query string. -/
def encChunk (k v : GoStr) : GoStr := k ++ 61 :: queryEscape v

/-- The encoded `key=value` text of one pair, as `Encode` writes it. -/
def encPair (p : GoStr × GoStr) : GoStr :=
  queryEscape p.1 ++ 61 :: queryEscape p.2

/-- The `&`-prefixed continuation chunks of an encoded query. -/
def ampChunks (ps : List (GoStr × GoStr)) : GoStr :=
  ps.flatMap fun p => 38 :: encPair p

/-- The ten key/value pairs of the full `/check` query, in the sorted order
`Encode` emits them. -/
def checkPairs (f : Forensiq) (cr : CheckRequest) : List (GoStr × GoStr) :=
  [(gs "ck", f.ClientKey), (gs "cmp", cr.Campaign), (gs "id", cr.CookieID),
   (gs "ip", ipString cr.IP), (gs "output", gs "JSON"), (gs "rt", cr.RequestType),
   (gs "seller", cr.SellerID), (gs "sub", cr.SubID), (gs "ua", cr.UserAgent),
   (gs "url", cr.URL)]

/-- The eight key/value pairs of `toValues` alone, in sorted order. -/
def toValuesPairs (cr : CheckRequest) : List (GoStr × GoStr) :=
  [(gs "cmp", cr.Campaign), (gs "id", cr.CookieID), (gs "ip", ipString cr.IP),
   (gs "rt", cr.RequestType), (gs "seller", cr.SellerID), (gs "sub", cr.SubID),
   (gs "ua", cr.UserAgent), (gs "url", cr.URL)]

/-- A byte that `QueryEscape` passes through unchanged. -/
def plainByte (b : Byte) : Bool := !(b == 32) && !shouldEscapeQuery b

/-! ## Concrete example inputs used to witness the theorems -/

/-- A well-formed example base address. -/
def exHost : GoStr := gs "http://example.com"

/-- The parse of `exHost`. -/
def exURL : URL := ⟨gs "http", [], gs "example.com", [], [], []⟩

/-- An example client configuration. -/
def exForensiq : Forensiq := ⟨gs "secret", exHost⟩

/-- An example request with an IPv4 address. -/
def exRequest : CheckRequest :=
  ⟨[8, 8, 8, 8], gs "display", [], gs "42", [], [], [], []⟩

/-- The all-zero request (`CheckRequest{}` in Go: nil IP, empty strings). -/
def zeroRequest : CheckRequest := ⟨[], [], [], [], [], [], [], []⟩

/-- A transport that answers 403 with a non-JSON body. -/
def exTransport403 : Transport := fun _ => .ok ⟨403, gs "Forbidden"⟩

/-- A transport that answers 200 with some body. -/
def exTransport200 : Transport := fun _ => .ok ⟨200, gs "1"⟩

/-- A transport that fails at the network level. -/
def exTransportErr : Transport := fun _ => .error (gs "connection refused")

/-- A decoder that decodes every body to the zero response. -/
def exDecodeOk : JsonDecoder := fun _ => .ok zeroCheckResponse

/-- A decoder that fails on every body. -/
def exDecodeErr : JsonDecoder := fun _ => .error (gs "invalid JSON")

/-- A malformed base address: a URL starting with a colon. -/
def exBadHost : GoStr := gs ":"

/-! ## Byte-level facts about query escaping -/

theorem plainByte_not_special :
    ∀ b : Byte, plainByte b = true → b ≠ 37 ∧ b ≠ 43 ∧ b ≠ 38 ∧ b ≠ 61 ∧ b ≠ 59 := by
  decide

set_option maxHeartbeats 1000000 in
theorem escapeByte_sep_free :
    ∀ b : Byte, ((escapeByte b).all fun c => !(c == 38) && !(c == 61) && !(c == 59)) = true := by
  decide

theorem queryEscape_sep_free (v : GoStr) :
    ∀ c ∈ queryEscape v, c ≠ 38 ∧ c ≠ 61 ∧ c ≠ 59 := by
  induction v with
  | nil => intro c hc; simp [queryEscape] at hc
  | cons b v ih =>
      intro c hc
      simp only [queryEscape, List.flatMap_cons, List.mem_append] at hc
      rcases hc with hc | hc
      · have h := escapeByte_sep_free b
        simp only [List.all_eq_true, Bool.and_eq_true, Bool.not_eq_eq_eq_not,
          Bool.not_true, beq_eq_false_iff_ne] at h
        exact ⟨(h c hc).1.1, (h c hc).1.2, (h c hc).2⟩
      · exact ih c hc

theorem hexUpper_isHex : ∀ d : Fin 16, isHexB (hexUpper d.val) = true := by decide

theorem unhexB_hexUpper : ∀ d : Fin 16, unhexB (hexUpper d.val) = d.val := by decide

theorem escapeByte_plain (b : Byte) (h : plainByte b = true) : escapeByte b = [b] := by
  simp only [plainByte, Bool.and_eq_true, Bool.not_eq_eq_eq_not, Bool.not_true] at h
  simp [escapeByte, h.1, h.2]

theorem queryEscape_cons (b : Byte) (v : GoStr) :
    queryEscape (b :: v) = escapeByte b ++ queryEscape v := by
  simp [queryEscape]

theorem queryEscape_plain (k : GoStr) (h : k.all plainByte = true) : queryEscape k = k := by
  induction k with
  | nil => rfl
  | cons b k ih =>
      simp only [List.all_cons, Bool.and_eq_true] at h
      rw [queryEscape_cons, escapeByte_plain b h.1, ih h.2]
      rfl

theorem queryUnescape_nil : queryUnescape [] = some [] := by
  rw [queryUnescape.eq_def]

theorem queryUnescape_cons_other (b : Byte) (r : GoStr)
    (h37 : (b == 37) = false) (h43 : (b == 43) = false) :
    queryUnescape (b :: r) = (queryUnescape r).map (b :: ·) := by
  rw [queryUnescape.eq_def]
  simp [h37, h43]

theorem queryUnescape_cons_plus (r : GoStr) :
    queryUnescape ((43 : Byte) :: r) = (queryUnescape r).map ((32 : Byte) :: ·) := by
  rw [queryUnescape.eq_def]
  simp [show ((43 : Byte) == 37) = false from by decide,
    show ((43 : Byte) == 43) = true from by decide]

theorem queryUnescape_cons_pct (h1 h2 : Byte) (r : GoStr)
    (hx1 : isHexB h1 = true) (hx2 : isHexB h2 = true) :
    queryUnescape ((37 : Byte) :: h1 :: h2 :: r) =
      (queryUnescape r).map
        ((⟨(unhexB h1 * 16 + unhexB h2) % 256, Nat.mod_lt _ (by decide)⟩ : Byte) :: ·) := by
  rw [queryUnescape.eq_def]
  simp [hx1, hx2]

theorem queryUnescape_escapeByte (b : Byte) (r : GoStr) :
    queryUnescape (escapeByte b ++ r) = (queryUnescape r).map (b :: ·) := by
  by_cases h32 : b = 32
  · subst h32
    have : escapeByte 32 = [43] := by decide
    rw [this]
    simpa using queryUnescape_cons_plus r
  · have h32' : (b == 32) = false := by simpa using h32
    by_cases hse : shouldEscapeQuery b = true
    · have hdiv : b.val / 16 < 16 := by omega
      have hmod : b.val % 16 < 16 := by omega
      have hx1 : isHexB (hexUpper (b.val / 16)) = true := hexUpper_isHex ⟨b.val / 16, hdiv⟩
      have hx2 : isHexB (hexUpper (b.val % 16)) = true := hexUpper_isHex ⟨b.val % 16, hmod⟩
      have hesc : escapeByte b = [37, hexUpper (b.val / 16), hexUpper (b.val % 16)] := by
        simp [escapeByte, h32', hse]
      have hb : (⟨(unhexB (hexUpper (b.val / 16)) * 16 + unhexB (hexUpper (b.val % 16))) % 256,
          Nat.mod_lt _ (by decide)⟩ : Byte) = b := by
        apply Fin.ext
        have e1 : unhexB (hexUpper (b.val / 16)) = b.val / 16 := unhexB_hexUpper ⟨b.val / 16, hdiv⟩
        have e2 : unhexB (hexUpper (b.val % 16)) = b.val % 16 := unhexB_hexUpper ⟨b.val % 16, hmod⟩
        simp only [e1, e2]
        have e3 : b.val / 16 * 16 + b.val % 16 = b.val := by omega
        simp [e3, Nat.mod_eq_of_lt b.isLt]
      rw [hesc]
      show queryUnescape ((37 : Byte) :: hexUpper (b.val / 16) :: hexUpper (b.val % 16) :: r) = _
      rw [queryUnescape_cons_pct _ _ _ hx1 hx2, hb]
    · have hse' : shouldEscapeQuery b = false := by simpa using hse
      have hplain : plainByte b = true := by simp [plainByte, h32', hse']
      have hspec := plainByte_not_special b hplain
      have h37 : (b == 37) = false := by simpa using hspec.1
      have h43 : (b == 43) = false := by simpa using hspec.2.1
      rw [escapeByte_plain b hplain]
      show queryUnescape (b :: r) = _
      exact queryUnescape_cons_other b r h37 h43

theorem queryUnescape_queryEscape (v : GoStr) :
    queryUnescape (queryEscape v) = some v := by
  induction v with
  | nil => exact queryUnescape_nil
  | cons b v ih =>
      rw [queryEscape_cons, queryUnescape_escapeByte, ih]
      rfl

theorem queryUnescape_plain (k : GoStr) (h : k.all plainByte = true) :
    queryUnescape k = some k := by
  induction k with
  | nil => exact queryUnescape_nil
  | cons b k ih =>
      simp only [List.all_cons, Bool.and_eq_true] at h
      have hspec := plainByte_not_special b h.1
      have h37 : (b == 37) = false := by simpa using hspec.1
      have h43 : (b == 43) = false := by simpa using hspec.2.1
      rw [queryUnescape_cons_other b k h37 h43, ih h.2]
      rfl

/-! ## Splitting the encoded query back into chunks -/

theorem splitOnByte_no_sep (sep : Byte) (s : GoStr) (h : sep ∉ s) :
    splitOnByte sep s = [s] := by
  induction s with
  | nil => rfl
  | cons b s ih =>
      have hb : (b == sep) = false := by
        simp only [List.mem_cons, not_or] at h
        simpa using fun e => h.1 e.symm
      have hs : sep ∉ s := by
        simp only [List.mem_cons, not_or] at h
        exact h.2
      simp [splitOnByte, hb, ih hs]

theorem splitOnByte_append (sep : Byte) (xs ys : GoStr) (h : sep ∉ xs) :
    splitOnByte sep (xs ++ sep :: ys) = xs :: splitOnByte sep ys := by
  induction xs with
  | nil =>
      simp [splitOnByte]
  | cons b xs ih =>
      have hb : (b == sep) = false := by
        simp only [List.mem_cons, not_or] at h
        simpa using fun e => h.1 e.symm
      have hs : sep ∉ xs := by
        simp only [List.mem_cons, not_or] at h
        exact h.2
      simp only [List.cons_append, splitOnByte, hb, Bool.false_eq_true, if_false,
        List.append_eq]
      rw [ih hs]

theorem cutByte_no_sep (s : GoStr) (sep : Byte) (h : sep ∉ s) :
    cutByte s sep = (s, []) := by
  induction s with
  | nil => rfl
  | cons b s ih =>
      have hb : (b == sep) = false := by
        simp only [List.mem_cons, not_or] at h
        simpa using fun e => h.1 e.symm
      have hs : sep ∉ s := by
        simp only [List.mem_cons, not_or] at h
        exact h.2
      simp [cutByte, hb, ih hs]

theorem cutByte_append (xs ys : GoStr) (sep : Byte) (h : sep ∉ xs) :
    cutByte (xs ++ sep :: ys) sep = (xs, ys) := by
  induction xs with
  | nil => simp [cutByte]
  | cons b xs ih =>
      have hb : (b == sep) = false := by
        simp only [List.mem_cons, not_or] at h
        simpa using fun e => h.1 e.symm
      have hs : sep ∉ xs := by
        simp only [List.mem_cons, not_or] at h
        exact h.2
      simp [cutByte, hb, ih hs]

theorem encChunk_ne_nil (k v : GoStr) : encChunk k v ≠ [] := by
  cases k <;> simp [encChunk]

theorem amp_not_mem_encChunk (k v : GoStr) (hk : k.all plainByte = true) :
    (38 : Byte) ∉ encChunk k v := by
  simp only [encChunk, List.mem_append, List.mem_cons, not_or]
  refine ⟨fun hm => ?_, ?_, fun hm => ?_⟩
  · simp only [List.all_eq_true] at hk
    exact (plainByte_not_special _ (hk _ hm)).2.2.1 rfl
  · decide
  · exact (queryEscape_sep_free v _ hm).1 rfl

theorem parseChunk_encChunk (k v : GoStr) (hk : k.all plainByte = true) :
    parseChunk (encChunk k v) = some (k, v) := by
  have hsemi : (59 : Byte) ∉ encChunk k v := by
    simp only [encChunk, List.mem_append, List.mem_cons, not_or]
    refine ⟨fun hm => ?_, ?_, fun hm => ?_⟩
    · simp only [List.all_eq_true] at hk
      exact (plainByte_not_special _ (hk _ hm)).2.2.2.2 rfl
    · decide
    · exact (queryEscape_sep_free v _ hm).2.2 rfl
  have heq : (61 : Byte) ∉ k := by
    intro hm
    simp only [List.all_eq_true] at hk
    exact (plainByte_not_special _ (hk _ hm)).2.2.2.1 rfl
  have hcut : cutByte (encChunk k v) 61 = (k, queryEscape v) := cutByte_append k _ 61 heq
  simp only [parseChunk, hsemi, if_false, hcut, queryUnescape_plain k hk,
    queryUnescape_queryEscape v]

theorem parseQueryPairs_encChunk_cons (k v : GoStr) (rest : GoStr)
    (hk : k.all plainByte = true) :
    parseQueryPairs (encChunk k v ++ 38 :: rest) = (k, v) :: parseQueryPairs rest := by
  simp only [parseQueryPairs,
    splitOnByte_append 38 (encChunk k v) rest (amp_not_mem_encChunk k v hk),
    List.filter_cons]
  have hne : (encChunk k v).isEmpty = false := by
    cases hkv : encChunk k v with
    | nil => exact absurd hkv (encChunk_ne_nil k v)
    | cons a l => rfl
  simp [hne, parseChunk_encChunk k v hk]

theorem parseQueryPairs_encChunk_last (k v : GoStr) (hk : k.all plainByte = true) :
    parseQueryPairs (encChunk k v) = [(k, v)] := by
  simp only [parseQueryPairs,
    splitOnByte_no_sep 38 (encChunk k v) (amp_not_mem_encChunk k v hk),
    List.filter_cons]
  have hne : (encChunk k v).isEmpty = false := by
    cases hkv : encChunk k v with
    | nil => exact absurd hkv (encChunk_ne_nil k v)
    | cons a l => rfl
  simp [hne, parseChunk_encChunk k v hk]

/-! ## Parsing an encoded `Values` recovers its pairs -/

theorem encPair_isEmpty (p : GoStr × GoStr) : (encPair p).isEmpty = false := by
  cases h : queryEscape p.1 with
  | nil => simp [encPair, h]
  | cons a l => simp [encPair, h]

theorem encode_fold_ne (ps : List (GoStr × GoStr)) :
    ∀ buf : GoStr, buf.isEmpty = false →
      (ps.map fun p => (p.1, [p.2])).foldl
        (fun buf p => p.2.foldl (fun buf v => encodeOne buf (queryEscape p.1) v) buf) buf
      = buf ++ ampChunks ps := by
  induction ps with
  | nil => intro buf _; simp [ampChunks]
  | cons p ps ih =>
      intro buf hbuf
      simp only [List.map_cons, List.foldl_cons, List.foldl_nil]
      have hstep : encodeOne buf (queryEscape p.1) p.2 = buf ++ 38 :: encPair p := by
        simp [encodeOne, hbuf, encPair]
      rw [hstep]
      have hne : (buf ++ 38 :: encPair p).isEmpty = false := by
        cases buf with
        | nil => simp at hbuf
        | cons a l => simp
      rw [ih _ hne]
      simp [ampChunks, List.append_assoc]

theorem encode_fold_start (p : GoStr × GoStr) (ps : List (GoStr × GoStr)) :
    ((p :: ps).map fun q => (q.1, [q.2])).foldl
      (fun buf q => q.2.foldl (fun buf v => encodeOne buf (queryEscape q.1) v) buf) []
    = encPair p ++ ampChunks ps := by
  simp only [List.map_cons, List.foldl_cons, List.foldl_nil]
  have hstart : encodeOne [] (queryEscape p.1) p.2 = encPair p := by
    simp [encodeOne, encPair]
  rw [hstart, encode_fold_ne ps _ (encPair_isEmpty p)]

theorem parse_encPair_chunks (ps : List (GoStr × GoStr)) :
    ∀ k v : GoStr, k.all plainByte = true →
      (∀ p ∈ ps, p.1.all plainByte = true) →
      parseQueryPairs (encPair (k, v) ++ ampChunks ps) = (k, v) :: ps := by
  induction ps with
  | nil =>
      intro k v hk _
      have : encPair (k, v) = encChunk k v := by
        simp [encPair, encChunk, queryEscape_plain k hk]
      simp [ampChunks, this, parseQueryPairs_encChunk_last k v hk]
  | cons p ps ih =>
      intro k v hk hps
      have hk' : encPair (k, v) = encChunk k v := by
        simp [encPair, encChunk, queryEscape_plain k hk]
      have hch : ampChunks (p :: ps) = 38 :: (encPair (p.1, p.2) ++ ampChunks ps) := by
        simp [ampChunks]
      rw [hk', hch, parseQueryPairs_encChunk_cons k v _ hk,
        ih p.1 p.2 (hps p (List.mem_cons_self p ps)) (fun q hq => hps q (List.mem_cons_of_mem p hq))]

/-! ## The concrete query of a Check request -/

theorem plainKey_ck : (gs "ck").all plainByte = true := by decide

theorem plainKey_cmp : (gs "cmp").all plainByte = true := by decide

theorem plainKey_id : (gs "id").all plainByte = true := by decide

theorem plainKey_ip : (gs "ip").all plainByte = true := by decide

theorem plainKey_output : (gs "output").all plainByte = true := by decide

theorem plainKey_rt : (gs "rt").all plainByte = true := by decide

theorem plainKey_seller : (gs "seller").all plainByte = true := by decide

theorem plainKey_sub : (gs "sub").all plainByte = true := by decide

theorem plainKey_ua : (gs "ua").all plainByte = true := by decide

theorem plainKey_url : (gs "url").all plainByte = true := by decide

theorem sortKeys_checkValues (f : Forensiq) (cr : CheckRequest) :
    Values.sortKeys (checkValues f cr) = (checkPairs f cr).map fun p => (p.1, [p.2]) := rfl

theorem sortKeys_toValues (cr : CheckRequest) :
    Values.sortKeys cr.toValues = (toValuesPairs cr).map fun p => (p.1, [p.2]) := rfl

theorem parseQueryPairs_checkRawQuery (f : Forensiq) (cr : CheckRequest) :
    parseQueryPairs (checkRawQuery f cr) = checkPairs f cr := by
  have henc : checkRawQuery f cr =
      encPair (gs "ck", f.ClientKey) ++ ampChunks (checkPairs f cr).tail := by
    show Values.encode (checkValues f cr) = _
    rw [Values.encode, sortKeys_checkValues]
    exact encode_fold_start _ _
  rw [henc]
  have h := parse_encPair_chunks (checkPairs f cr).tail (gs "ck") f.ClientKey
    plainKey_ck
    (by
      intro p hp
      simp only [checkPairs, List.tail_cons, List.mem_cons, List.not_mem_nil,
        or_false] at hp
      rcases hp with h | h | h | h | h | h | h | h | h <;> subst h <;> rfl)
  rw [h]
  rfl

theorem parseQueryPairs_toValues_encode (cr : CheckRequest) :
    parseQueryPairs (Values.encode cr.toValues) = toValuesPairs cr := by
  have henc : Values.encode cr.toValues =
      encPair (gs "cmp", cr.Campaign) ++ ampChunks (toValuesPairs cr).tail := by
    rw [Values.encode, sortKeys_toValues]
    exact encode_fold_start _ _
  rw [henc]
  have h := parse_encPair_chunks (toValuesPairs cr).tail (gs "cmp") cr.Campaign
    plainKey_cmp
    (by
      intro p hp
      simp only [toValuesPairs, List.tail_cons, List.mem_cons, List.not_mem_nil,
        or_false] at hp
      rcases hp with h | h | h | h | h | h | h <;> subst h <;> rfl)
  rw [h]
  rfl

/-! ## Claim theorems -/

/-- C4: serializing a `CheckRequest` into query parameters and decoding the
query on the receiving side recovers each original field value: the
parameters `ip, rt, url, seller, sub, cmp, ua, id` decode back to the IP
address (in its serialized text form), request type, URL, seller ID,
sub ID, campaign ID, user agent and cookie ID respectively, for every
request, so the decode is a round-trip of the encode. -/
theorem toValues_query_roundtrip (cr : CheckRequest) :
    pairsGet (parseQueryPairs (Values.encode cr.toValues)) (gs "ip") = ipString cr.IP ∧
    pairsGet (parseQueryPairs (Values.encode cr.toValues)) (gs "rt") = cr.RequestType ∧
    pairsGet (parseQueryPairs (Values.encode cr.toValues)) (gs "url") = cr.URL ∧
    pairsGet (parseQueryPairs (Values.encode cr.toValues)) (gs "seller") = cr.SellerID ∧
    pairsGet (parseQueryPairs (Values.encode cr.toValues)) (gs "sub") = cr.SubID ∧
    pairsGet (parseQueryPairs (Values.encode cr.toValues)) (gs "cmp") = cr.Campaign ∧
    pairsGet (parseQueryPairs (Values.encode cr.toValues)) (gs "ua") = cr.UserAgent ∧
    pairsGet (parseQueryPairs (Values.encode cr.toValues)) (gs "id") = cr.CookieID := by
  rw [parseQueryPairs_toValues_encode]
  exact ⟨rfl, rfl, rfl, rfl, rfl, rfl, rfl, rfl⟩

/-- C10: for every configuration and request, the outgoing Check query
decodes to exactly the ten pairs `ck, cmp, id, ip, output, rt, seller,
sub, ua, url` carrying the client key, the eight request fields (an empty
optional field appears as a parameter with an empty value, it is not
omitted) and the JSON output marker; and the query string is a function of
the client key and the request alone (the base address does not influence
it), hence deterministic. -/
theorem check_query_contains_all_parameters (f : Forensiq) (cr : CheckRequest) :
    parseQueryPairs (checkRawQuery f cr) = checkPairs f cr ∧
    (∀ host1 host2 : GoStr,
      checkRawQuery ⟨f.ClientKey, host1⟩ cr = checkRawQuery ⟨f.ClientKey, host2⟩ cr) := by
  exact ⟨parseQueryPairs_checkRawQuery f cr, fun host1 host2 => rfl⟩

/-- C7 counterexample: the zero (nil) IP address does not serialize to the
empty string; `toValues` maps the `ip` parameter of the zero request to
the placeholder text `<nil>` produced by `net.IP.String`. -/
theorem zero_ip_not_empty_string :
    Values.get (CheckRequest.toValues zeroRequest) (gs "ip") = gs "<nil>" ∧
    Values.get (CheckRequest.toValues zeroRequest) (gs "ip") ≠ gs "" := by
  exact ⟨rfl, by decide⟩

/-- C7 (amended): for every `CheckRequest` whose IP field is the empty/zero
address, the serialized `ip` query parameter is the five-character
placeholder `<nil>` (Go's rendering of a zero-length `net.IP`); the value
is passed through as-is, not rejected, but it is not the empty string. -/
theorem zero_ip_serializes_as_nil_text (cr : CheckRequest) (h : cr.IP = []) :
    Values.get cr.toValues (gs "ip") = gs "<nil>" := by
  have hget : Values.get cr.toValues (gs "ip") = ipString cr.IP := rfl
  rw [hget, h]
  rfl

/-- Witness for C7's amended theorem at the zero request. -/
theorem zero_ip_serializes_as_nil_text_witness :
    zeroRequest.IP = [] ∧ Values.get zeroRequest.toValues (gs "ip") = gs "<nil>" :=
  ⟨rfl, zero_ip_serializes_as_nil_text zeroRequest rfl⟩

/-! ## Behaviour of Check and Ready -/

theorem check_trace (f : Forensiq) (cr : CheckRequest) (t : Transport) (jd : JsonDecoder)
    (u : URL) (h : urlParse f.Host = .ok u) :
    (f.Check cr t jd).2 = [checkHttpRequest f cr u] := by
  simp only [Forensiq.Check, h]
  cases ht : t (checkHttpRequest f cr u) with
  | error e => rfl
  | ok resp =>
      by_cases h4 : resp.statusCode = 403
      · simp [h4]
      · simp only [h4, if_false]
        cases jd resp.body <;> simp

theorem ready_trace (f : Forensiq) (t : Transport) (u : URL) (h : urlParse f.Host = .ok u) :
    (f.Ready t).2 = [readyHttpRequest u] := by
  simp only [Forensiq.Ready, h]
  cases ht : t (readyHttpRequest u) <;> rfl

/-- C1: for every configuration and request, once the base address parses,
the single outgoing Check request carries the parameter `ck` set to the
configured client key and the parameter `output` set to the literal
`JSON` in its query string, regardless of which request fields are empty
(the request is universally quantified). -/
theorem check_query_injects_key_and_output (f : Forensiq) (cr : CheckRequest)
    (t : Transport) (jd : JsonDecoder) (u : URL) (h : urlParse f.Host = .ok u) :
    (f.Check cr t jd).2 = [checkHttpRequest f cr u] ∧
    pairsGet (parseQueryPairs (checkHttpRequest f cr u).url.rawQuery) (gs "ck")
      = f.ClientKey ∧
    pairsGet (parseQueryPairs (checkHttpRequest f cr u).url.rawQuery) (gs "output")
      = gs "JSON" := by
  have hq : (checkHttpRequest f cr u).url.rawQuery = checkRawQuery f cr := by
    simp only [checkHttpRequest]
  refine ⟨check_trace f cr t jd u h, ?_, ?_⟩
  · rw [hq, parseQueryPairs_checkRawQuery]
    rfl
  · rw [hq, parseQueryPairs_checkRawQuery]
    rfl

set_option maxHeartbeats 4000000 in
/-- Witness for C1 at a concrete configuration, request, transport and
decoder. -/
theorem check_query_injects_key_and_output_witness :
    (exForensiq.Check exRequest exTransportErr exDecodeOk).2 =
      [checkHttpRequest exForensiq exRequest exURL] ∧
    pairsGet (parseQueryPairs (checkHttpRequest exForensiq exRequest exURL).url.rawQuery)
      (gs "ck") = exForensiq.ClientKey ∧
    pairsGet (parseQueryPairs (checkHttpRequest exForensiq exRequest exURL).url.rawQuery)
      (gs "output") = gs "JSON" :=
  check_query_injects_key_and_output exForensiq exRequest exTransportErr exDecodeOk exURL
    rfl

/-- C6: if the configured base address fails to parse, both `Check` and
`Ready` fail with that parse error and hand no request at all to the
transport: no network I/O happens on that execution. -/
theorem bad_base_address_fails_without_request (f : Forensiq) (cr : CheckRequest)
    (t : Transport) (jd : JsonDecoder) (e : GoStr) (h : urlParse f.Host = .error e) :
    f.Check cr t jd = ((zeroCheckResponse, some (CheckErr.parseErr e)), []) ∧
    f.Ready t = ((false, some (CheckErr.parseErr e)), []) := by
  constructor
  · simp only [Forensiq.Check, h]
  · simp only [Forensiq.Ready, h]

/-- Witness for C6 at the malformed base address `":"`. -/
theorem bad_base_address_fails_without_request_witness :
    (Forensiq.Check ⟨gs "secret", exBadHost⟩ exRequest exTransportErr exDecodeOk) =
      ((zeroCheckResponse, some (CheckErr.parseErr (gs "missing protocol scheme"))), []) ∧
    (Forensiq.Ready ⟨gs "secret", exBadHost⟩ exTransportErr) =
      ((false, some (CheckErr.parseErr (gs "missing protocol scheme"))), []) :=
  bad_base_address_fails_without_request ⟨gs "secret", exBadHost⟩ exRequest exTransportErr
    exDecodeOk (gs "missing protocol scheme") rfl

/-- C2: once a response arrives, `Check` fails with the distinguished
`ErrInvalidClientKey` exactly when the HTTP status is 403: for a 403
response the full result is the zero response plus `ErrInvalidClientKey`
whatever the body holds and whatever the decoder would do (both are
universally quantified, so the body is never decoded in this branch), and
for any other status `Check` never returns `ErrInvalidClientKey`. -/
theorem check_invalid_key_iff_403 (f : Forensiq) (cr : CheckRequest)
    (t : Transport) (jd : JsonDecoder) (u : URL) (resp : HttpResponse)
    (h : urlParse f.Host = .ok u)
    (ht : t (checkHttpRequest f cr u) = .ok resp) :
    ((f.Check cr t jd).1.2 = some CheckErr.invalidClientKey ↔ resp.statusCode = 403) ∧
    (resp.statusCode = 403 →
      f.Check cr t jd =
        ((zeroCheckResponse, some CheckErr.invalidClientKey), [checkHttpRequest f cr u])) := by
  simp only [Forensiq.Check, h, ht]
  by_cases h4 : resp.statusCode = 403
  · simp [h4]
  · simp only [h4, if_false]
    cases jd resp.body with
    | error e => simp [h4]
    | ok c => simp [h4]

set_option maxHeartbeats 1000000 in
/-- Witness for C2: a 403 answer yields exactly `ErrInvalidClientKey` with
the zero response, and a 200 answer never yields it. -/
theorem check_invalid_key_iff_403_witness :
    ((((exForensiq.Check exRequest exTransport403 exDecodeErr).1.2
          = some CheckErr.invalidClientKey ↔
        (HttpResponse.mk 403 (gs "Forbidden")).statusCode = 403) ∧
      ((HttpResponse.mk 403 (gs "Forbidden")).statusCode = 403 →
        exForensiq.Check exRequest exTransport403 exDecodeErr =
          ((zeroCheckResponse, some CheckErr.invalidClientKey),
            [checkHttpRequest exForensiq exRequest exURL]))) ∧
     (((exForensiq.Check exRequest exTransport200 exDecodeErr).1.2
          = some CheckErr.invalidClientKey ↔
        (HttpResponse.mk 200 (gs "1")).statusCode = 403) ∧
      ((HttpResponse.mk 200 (gs "1")).statusCode = 403 →
        exForensiq.Check exRequest exTransport200 exDecodeErr =
          ((zeroCheckResponse, some CheckErr.invalidClientKey),
            [checkHttpRequest exForensiq exRequest exURL])))) :=
  ⟨check_invalid_key_iff_403 exForensiq exRequest exTransport403 exDecodeErr exURL
      (HttpResponse.mk 403 (gs "Forbidden")) rfl rfl,
   check_invalid_key_iff_403 exForensiq exRequest exTransport200 exDecodeErr exURL
      (HttpResponse.mk 200 (gs "1")) rfl rfl⟩

/-- C3: for every response `Ready` receives, the call returns, with no
error, exactly the boolean telling whether the whole body text equals the
single character `1`; the status code does not occur in the result at
all, and any other body (`0`, empty, arbitrary) gives `false`. -/
theorem ready_true_iff_body_one (f : Forensiq) (t : Transport) (u : URL)
    (resp : HttpResponse) (h : urlParse f.Host = .ok u)
    (ht : t (readyHttpRequest u) = .ok resp) :
    f.Ready t = ((resp.body == gs "1", none), [readyHttpRequest u]) ∧
    ((resp.body == gs "1") = true ↔ resp.body = gs "1") := by
  constructor
  · simp only [Forensiq.Ready, h, ht]
  · exact beq_iff_eq

set_option maxHeartbeats 1000000 in
/-- Witness for C3 at a transport answering body `1`. -/
theorem ready_true_iff_body_one_witness :
    (exForensiq.Ready exTransport200 =
      (((HttpResponse.mk 200 (gs "1")).body == gs "1", none),
        [readyHttpRequest exURL]) ∧
    (((HttpResponse.mk 200 (gs "1")).body == gs "1") = true ↔
      (HttpResponse.mk 200 (gs "1")).body = gs "1")) :=
  ready_true_iff_body_one exForensiq exTransport200 exURL
    (HttpResponse.mk 200 (gs "1")) rfl rfl

/-- C5: whenever `Check` returns an error, the accompanying response value
is the zero `CheckResponse` (all integers 0, all booleans false), and
whenever `Ready` returns an error, the accompanying boolean is `false`:
there is never a partially populated result on an error path. -/
theorem failure_returns_zero_results :
    (∀ (f : Forensiq) (cr : CheckRequest) (t : Transport) (jd : JsonDecoder) (e : CheckErr),
        (f.Check cr t jd).1.2 = some e → (f.Check cr t jd).1.1 = zeroCheckResponse) ∧
    (∀ (f : Forensiq) (t : Transport) (e : CheckErr),
        (f.Ready t).1.2 = some e → (f.Ready t).1.1 = false) := by
  constructor
  · intro f cr t jd e
    simp only [Forensiq.Check]
    cases hu : urlParse f.Host with
    | error e2 => intro _; rfl
    | ok u =>
        cases ht : t (checkHttpRequest f cr u) with
        | error e2 => simp [ht]
        | ok resp =>
            simp only [ht]
            by_cases h4 : resp.statusCode = 403
            · simp [h4]
            · simp only [h4, if_false]
              cases hj : jd resp.body with
              | error e2 => simp [hj]
              | ok c => simp only [hj]; simp
  · intro f t e
    simp only [Forensiq.Ready]
    cases hu : urlParse f.Host with
    | error e2 => intro _; rfl
    | ok u =>
        cases ht : t (readyHttpRequest u) with
        | error e2 => simp [ht]
        | ok resp => simp only [ht]; simp

set_option maxHeartbeats 1000000 in
/-- Witness for C5: a failing `Check` and a failing `Ready` (malformed
base address) return the zero response and `false` respectively. -/
theorem failure_returns_zero_results_witness :
    (Forensiq.Check ⟨gs "secret", exBadHost⟩ exRequest exTransportErr exDecodeOk).1.1
      = zeroCheckResponse ∧
    (Forensiq.Ready ⟨gs "secret", exBadHost⟩ exTransportErr).1.1 = false :=
  ⟨failure_returns_zero_results.1 ⟨gs "secret", exBadHost⟩ exRequest exTransportErr
      exDecodeOk (CheckErr.parseErr (gs "missing protocol scheme")) rfl,
   failure_returns_zero_results.2 ⟨gs "secret", exBadHost⟩ exTransportErr
      (CheckErr.parseErr (gs "missing protocol scheme")) rfl⟩

/-! ## Rendering the request URLs -/

theorem checkRawQuery_isEmpty_false (f : Forensiq) (cr : CheckRequest) :
    (checkRawQuery f cr).isEmpty = false := by
  have henc : checkRawQuery f cr =
      encPair (gs "ck", f.ClientKey) ++ ampChunks (checkPairs f cr).tail := by
    show Values.encode (checkValues f cr) = _
    rw [Values.encode, sortKeys_checkValues]
    exact encode_fold_start _ _
  rw [henc]
  cases hp : encPair (gs "ck", f.ClientKey) with
  | nil =>
      have := encPair_isEmpty (gs "ck", f.ClientKey)
      rw [hp] at this
      simp at this
  | cons a l => simp

theorem urlToString_std (u2 : URL) (hop : u2.opaq = []) (hsc : u2.scheme ≠ [])
    (hho : u2.host ≠ []) (hfr : u2.fragment = [])
    (hpa : startsWithByte u2.path 47 = true) :
    URL.toString u2 =
      u2.scheme ++ [58, 47, 47] ++ u2.host ++ u2.path ++
        (if u2.rawQuery.isEmpty then [] else 63 :: u2.rawQuery) := by
  have h1 : u2.scheme.isEmpty = false := by
    cases hs : u2.scheme with
    | nil => exact absurd hs hsc
    | cons a l => rfl
  have h2 : u2.host.isEmpty = false := by
    cases hs : u2.host with
    | nil => exact absurd hs hho
    | cons a l => rfl
  simp only [URL.toString, h1, h2, hop, hfr, hpa, List.isEmpty_nil, Bool.not_true,
    Bool.not_false, Bool.false_and, Bool.and_false, Bool.true_or, Bool.or_true,
    Bool.true_and, if_false, if_true, Bool.false_eq_true, List.append_nil,
    List.nil_append]
  simp [List.append_assoc]

theorem urlToString_std_q (u2 : URL) (hop : u2.opaq = []) (hsc : u2.scheme ≠ [])
    (hho : u2.host ≠ []) (hfr : u2.fragment = [])
    (hpa : startsWithByte u2.path 47 = true) (hq : u2.rawQuery.isEmpty = false) :
    URL.toString u2 =
      u2.scheme ++ [58, 47, 47] ++ u2.host ++ u2.path ++ 63 :: u2.rawQuery := by
  rw [urlToString_std u2 hop hsc hho hfr hpa, hq]
  simp

theorem urlToString_std_noq (u2 : URL) (hop : u2.opaq = []) (hsc : u2.scheme ≠ [])
    (hho : u2.host ≠ []) (hfr : u2.fragment = [])
    (hpa : startsWithByte u2.path 47 = true) (hq : u2.rawQuery = []) :
    URL.toString u2 = u2.scheme ++ [58, 47, 47] ++ u2.host ++ u2.path := by
  rw [urlToString_std u2 hop hsc hho hfr hpa, hq]
  simp

/-- C8: once the base address parses, `Check` issues exactly one HTTP GET
carrying the `Content-Type: application/json` header, whose URL is the
parsed base address with its path set to `/check` and the serialized
query attached; for an ordinary absolute base address (nonempty scheme
and host, no opaque part, no fragment) the rendered URL is literally
`<scheme>://<host>/check?<query>`. -/
theorem check_sends_single_get_to_check_path (f : Forensiq) (cr : CheckRequest)
    (t : Transport) (jd : JsonDecoder) (u : URL) (h : urlParse f.Host = .ok u) :
    (f.Check cr t jd).2 = [checkHttpRequest f cr u] ∧
    (checkHttpRequest f cr u).method = gs "GET" ∧
    (checkHttpRequest f cr u).header = [(gs "Content-Type", gs "application/json")] ∧
    (checkHttpRequest f cr u).url =
      { u with path := gs "/check", rawQuery := checkRawQuery f cr } ∧
    (u.opaq = [] → u.scheme ≠ [] → u.host ≠ [] → u.fragment = [] →
      URL.toString (checkHttpRequest f cr u).url =
        u.scheme ++ gs "://" ++ u.host ++ gs "/check?" ++ checkRawQuery f cr) := by
  refine ⟨check_trace f cr t jd u h, rfl, rfl, by simp only [checkHttpRequest], ?_⟩
  intro hop hsc hho hfr
  have hurl : (checkHttpRequest f cr u).url =
      { u with path := gs "/check", rawQuery := checkRawQuery f cr } := by
    simp only [checkHttpRequest]
  have hq : (checkRawQuery f cr).isEmpty = false := checkRawQuery_isEmpty_false f cr
  rw [hurl]
  revert hq
  generalize checkRawQuery f cr = q
  intro hq
  rw [urlToString_std_q { u with path := gs "/check", rawQuery := q } hop hsc hho hfr rfl hq]
  have h1 : gs "://" = [58, 47, 47] := rfl
  have h2 : gs "/check?" = gs "/check" ++ [63] := rfl
  simp [h1, h2, List.append_assoc]

set_option maxHeartbeats 1000000 in
/-- Witness for C8: the concrete configuration issues exactly one GET to
`http://example.com/check?<query>` with the JSON content-type header. -/
theorem check_sends_single_get_to_check_path_witness :
    (exForensiq.Check exRequest exTransportErr exDecodeOk).2 =
      [checkHttpRequest exForensiq exRequest exURL] ∧
    (checkHttpRequest exForensiq exRequest exURL).method = gs "GET" ∧
    (checkHttpRequest exForensiq exRequest exURL).header =
      [(gs "Content-Type", gs "application/json")] ∧
    URL.toString (checkHttpRequest exForensiq exRequest exURL).url =
      exURL.scheme ++ gs "://" ++ exURL.host ++ gs "/check?" ++
        checkRawQuery exForensiq exRequest := by
  have h := check_sends_single_get_to_check_path exForensiq exRequest exTransportErr
    exDecodeOk exURL rfl
  exact ⟨h.1, h.2.1, h.2.2.1, h.2.2.2.2 rfl (by decide) (by decide) rfl⟩

/-- C9 counterexample: a parseable base address that itself carries a query
string refutes the claim: `Ready` preserves it, so the single issued GET
goes to `http://example.com/ready?a=1`, whose URL does carry a query
parameter. -/
theorem ready_sends_query_from_base_counterexample :
    ((Forensiq.Ready ⟨gs "secret", gs "http://example.com?a=1"⟩ exTransport200).2.map
        fun r => URL.toString r.url) = [gs "http://example.com/ready?a=1"] ∧
    ((Forensiq.Ready ⟨gs "secret", gs "http://example.com?a=1"⟩ exTransport200).2.map
        fun r => r.url.rawQuery) = [gs "a=1"] := by
  exact ⟨rfl, rfl⟩

/-- C9 (amended): once the base address parses, `Ready` issues exactly one
HTTP GET with no added headers, whose URL is the parsed base address with
its path set to `/ready`; `Ready` adds no query parameters and never
includes the authentication key — the URL's query component is exactly
the base address's own query component, so whenever the base address has
no query component (the ordinary case) the rendered URL is literally
`<scheme>://<host>/ready` with no query at all. -/
theorem ready_sends_single_get_to_ready_path (f : Forensiq) (t : Transport) (u : URL)
    (h : urlParse f.Host = .ok u) :
    (f.Ready t).2 = [readyHttpRequest u] ∧
    (readyHttpRequest u).method = gs "GET" ∧
    (readyHttpRequest u).header = [] ∧
    (readyHttpRequest u).url = { u with path := gs "/ready" } ∧
    (readyHttpRequest u).url.rawQuery = u.rawQuery ∧
    (u.rawQuery = [] → u.opaq = [] → u.scheme ≠ [] → u.host ≠ [] → u.fragment = [] →
      URL.toString (readyHttpRequest u).url =
        u.scheme ++ gs "://" ++ u.host ++ gs "/ready") := by
  refine ⟨ready_trace f t u h, rfl, rfl, by simp only [readyHttpRequest],
    by simp only [readyHttpRequest], ?_⟩
  intro hq hop hsc hho hfr
  have hurl : (readyHttpRequest u).url = { u with path := gs "/ready" } := by
    simp only [readyHttpRequest]
  rw [hurl, urlToString_std_noq { u with path := gs "/ready" } hop hsc hho hfr rfl hq]
  have h1 : gs "://" = [58, 47, 47] := rfl
  simp [h1, List.append_assoc]

set_option maxHeartbeats 1000000 in
/-- Witness for C9's amended theorem: with base `http://example.com` the
single issued GET goes to `http://example.com/ready`, with no query. -/
theorem ready_sends_single_get_to_ready_path_witness :
    (exForensiq.Ready exTransportErr).2 = [readyHttpRequest exURL] ∧
    (readyHttpRequest exURL).method = gs "GET" ∧
    (readyHttpRequest exURL).header = [] ∧
    (readyHttpRequest exURL).url.rawQuery = exURL.rawQuery ∧
    URL.toString (readyHttpRequest exURL).url =
      exURL.scheme ++ gs "://" ++ exURL.host ++ gs "/ready" := by
  have h := ready_sends_single_get_to_ready_path exForensiq exTransportErr exURL rfl
  exact ⟨h.1, h.2.1, h.2.2.1, h.2.2.2.2.1,
    h.2.2.2.2.2 rfl rfl (by decide) (by decide) rfl⟩
